import Mathlib

/-!
Verification of the AMF3 encoder/decoder (package `amf`).

The Go sources are embedded shallowly:
* machine integers are `Nat`/`Int` with explicit truncation (`% 256`, `% 2^32`)
  exactly where Go performs a narrowing conversion;
* Go strings are byte strings (`List Nat`), since the code only uses
  `len(s)` and `[]byte(s)`;
* fallible operations return `Except GoErr`, where `GoErr.err` models a
  returned `error` value and `GoErr.panic` models a Go runtime panic
  (out-of-range slice index, illegal `reflect` call);
* the byte-stream writer is in-memory (a successful `io.Writer`), so only
  the code's own error paths can fail.
-/

namespace GoAMF

/-- Go strings, viewed as byte strings: `len(s)` is the byte length and
`[]byte(s)` is the byte sequence. -/
abbrev GoStr := List Nat

/-- Outcome of a Go operation that does not succeed: either a returned
`error` value (handed to the caller) or a runtime panic (which crashes the
program). The decoder sources index slices without bounds checks and call
`reflect.Value.IsNil`/`Set` on values where those methods panic; such paths
are modelled with `GoErr.panic`. -/
inductive GoErr where
  | err (msg : String)
  | panic (msg : String)
deriving DecidableEq, Repr

instance instDecEqExcept {ε α : Type} [DecidableEq ε] [DecidableEq α] :
    DecidableEq (Except ε α) := fun x y =>
  match x, y with
  | .ok a, .ok b =>
    if h : a = b then isTrue (congrArg Except.ok h)
    else isFalse (fun hh => h (by injection hh))
  | .error a, .error b =>
    if h : a = b then isTrue (congrArg Except.error h)
    else isFalse (fun hh => h (by injection hh))
  | .ok _, .error _ => isFalse (fun hh => by injection hh)
  | .error _, .ok _ => isFalse (fun hh => by injection hh)

/-- True exactly when the outcome is a *returned* error (not a panic, not a
success). -/
def isReturnedError {α : Type} : Except GoErr α → Bool
  | .error (.err _) => true
  | _ => false

/-- Modelled from the spec: the AMF3 marker table (spec §6) is an external
single-byte constant contract, not part of the two source files; the values
are the ones fixed by the AMF3 wire format. -/
def NULL_MARKER : Nat := 0x01

/-- Modelled from the spec: AMF3 false marker. -/
def FALSE_MARKER : Nat := 0x02

/-- Modelled from the spec: AMF3 true marker. -/
def TRUE_MARKER : Nat := 0x03

/-- Modelled from the spec: AMF3 integer marker. -/
def INTEGER_MARKER : Nat := 0x04

/-- Modelled from the spec: AMF3 double marker. -/
def DOUBLE_MARKER : Nat := 0x05

/-- Modelled from the spec: AMF3 string marker. -/
def STRING_MARKER : Nat := 0x06

/-- Modelled from the spec: AMF3 (dense) array marker. -/
def ARRAY_MARKER : Nat := 0x09

/-- Modelled from the spec: AMF3 object marker. -/
def OBJECT_MARKER : Nat := 0x0a

/-- Go's `byte(x)` conversion: truncation to the low 8 bits. -/
def byteOf (x : Nat) : Nat := x % 256

/-- `Encoder.writeU29` (encoder.go lines 280-302), byte for byte.  Each
emitted byte goes through Go's narrowing `byte(...)` conversion. -/
def writeU29 (v : Nat) : Except GoErr (List Nat) :=
  if v < 0x80 then
    .ok [byteOf v]
  else if v < 0x4000 then
    .ok [byteOf ((v >>> 7) ||| 0x80), byteOf (v &&& 0x7f)]
  else if v < 0x200000 then
    .ok [byteOf ((v >>> 14) ||| 0x80), byteOf ((v >>> 7) ||| 0x80), byteOf (v &&& 0x7f)]
  else if v < 0x20000000 then
    .ok [byteOf ((v >>> 22) ||| 0x80), byteOf ((v >>> 15) ||| 0x80),
         byteOf ((v >>> 7) ||| 0x80), byteOf (v &&& 0xff)]
  else
    .error (.err "u29 overflow")

/-- The loop body of `Decoder.readU29` (decoder source lines 358-375):
iteration index `i` runs 0,1,2,3; bytes 0-2 contribute 7 bits each and stop
when the continuation bit is clear; byte 3 contributes all 8 bits. -/
def readU29Loop : Nat → Nat → List Nat → Except GoErr (Nat × List Nat)
  | _, _, [] => .error (.err "short read")
  | i, ret, b :: rest =>
    if i ≠ 3 then
      if b &&& 0x80 = 0 then .ok ((ret <<< 7) ||| (b &&& 0x7f), rest)
      else readU29Loop (i + 1) ((ret <<< 7) ||| (b &&& 0x7f)) rest
    else .ok ((ret <<< 8) ||| b, rest)

/-- `Decoder.readU29`: run the loop from index 0 with accumulator 0. -/
def readU29 (input : List Nat) : Except GoErr (Nat × List Nat) :=
  readU29Loop 0 0 input

/-- Boolean check that `v` survives a writer/reader round trip with the
whole stream consumed. -/
def u29RoundTrips (v : Nat) : Bool :=
  match writeU29 v with
  | .ok bs =>
    match readU29 bs with
    | .ok (w, rest) => w == v && rest.isEmpty
    | .error _ => false
  | .error _ => false

/-! ### Bit-arithmetic kit for the U29 codec -/

theorem and_two_pow_of_lt {v k : Nat} (h : v < 2 ^ k) : v &&& 2 ^ k = 0 := by
  apply Nat.eq_of_testBit_eq
  intro i
  simp only [Nat.testBit_and, Nat.testBit_two_pow, Nat.zero_testBit]
  by_cases hk : k = i
  · subst hk
    simp [Nat.testBit_lt_two_pow h]
  · simp [hk]

theorem or_and_absorb (x y : Nat) : (x &&& y) ||| y = y := by
  apply Nat.eq_of_testBit_eq
  intro i
  simp only [Nat.testBit_or, Nat.testBit_and]
  cases x.testBit i <;> cases y.testBit i <;> rfl

theorem and127_lt (x : Nat) : x &&& 127 < 128 := by
  have h : (127 : Nat) < 2 ^ 7 := by norm_num
  exact Nat.and_lt_two_pow x h

theorem and127_eq_mod (x : Nat) : x &&& 127 = x % 128 := by
  have h : (127 : Nat) = 2 ^ 7 - 1 := by norm_num
  rw [h, Nat.and_pow_two_sub_one_eq_mod]

theorem and127_of_lt {x : Nat} (h : x < 128) : x &&& 127 = x := by
  rw [and127_eq_mod, Nat.mod_eq_of_lt h]

theorem and255_eq_mod (x : Nat) : x &&& 255 = x % 256 := by
  have h : (255 : Nat) = 2 ^ 8 - 1 := by norm_num
  rw [h, Nat.and_pow_two_sub_one_eq_mod]

theorem or128_and127 (x : Nat) : (x ||| 128) &&& 127 = x &&& 127 := by
  rw [Nat.and_distrib_right]
  have h0 : (128 : Nat) &&& 127 = 0 := by decide
  rw [h0, Nat.or_zero]

theorem mod256_and127 (x : Nat) : (x % 256) &&& 127 = x &&& 127 := by
  rw [← and255_eq_mod, Nat.and_assoc]
  have h1 : (255 : Nat) &&& 127 = 127 := by decide
  rw [h1]

theorem mod256_and128 (x : Nat) : (x % 256) &&& 128 = x &&& 128 := by
  rw [← and255_eq_mod, Nat.and_assoc]
  have h1 : (255 : Nat) &&& 128 = 128 := by decide
  rw [h1]

theorem or128_and128 (x : Nat) : (x ||| 128) &&& 128 = 128 := by
  rw [Nat.and_distrib_right]
  have h : (128 : Nat) &&& 128 = 128 := by decide
  rw [h, or_and_absorb]

theorem and127_and127 (x : Nat) : (x &&& 127) &&& 127 = x &&& 127 := by
  rw [Nat.and_assoc]
  have h : (127 : Nat) &&& 127 = 127 := by decide
  rw [h]

theorem and127_and128 (x : Nat) : (x &&& 127) &&& 128 = 0 := by
  rw [Nat.and_assoc]
  have h : (127 : Nat) &&& 128 = 0 := by decide
  rw [h, Nat.and_zero]

theorem shl7_or_eq (a : Nat) {b : Nat} (hb : b < 128) :
    (a <<< 7) ||| b = 128 * a + b := by
  have h : b < 2 ^ 7 := hb
  rw [Nat.shiftLeft_eq, Nat.mul_comm, ← Nat.mul_add_lt_is_or h a]

theorem byteOf_of_lt {x : Nat} (h : x < 256) : byteOf x = x := by
  simp [byteOf, Nat.mod_eq_of_lt h]

/-- Writer/reader round trip on the 1-3 byte range of the U29 codec
(values below `0x200000`): reading back the written bytes, followed by any
suffix, yields the value and the suffix. -/
theorem readU29_writeU29_append {v : Nat} (h : v < 0x200000) {bs : List Nat}
    (hw : writeU29 v = .ok bs) (rest : List Nat) :
    readU29 (bs ++ rest) = .ok (v, rest) := by
  by_cases h1 : v < 0x80
  · have hbs : bs = [byteOf v] := by
      simp [writeU29, h1] at hw
      exact hw.symm
    subst hbs
    have hv256 : byteOf v = v := byteOf_of_lt (by omega)
    have hc : v &&& 128 = 0 := and_two_pow_of_lt (k := 7) (by omega)
    simp only [readU29, readU29Loop, hv256, List.cons_append, List.nil_append]
    rw [if_pos (by decide), if_pos hc]
    rw [and127_of_lt (by omega)]
    simp
  · by_cases h2 : v < 0x4000
    · have hbs : bs = [byteOf ((v >>> 7) ||| 128), byteOf (v &&& 127)] := by
        simp [writeU29, h1, h2] at hw
        exact hw.symm
      subst hbs
      have hs7 : v >>> 7 < 128 := by
        rw [Nat.shiftRight_eq_div_pow]
        omega
      have hb1 : byteOf ((v >>> 7) ||| 128) = (v >>> 7) ||| 128 :=
        byteOf_of_lt (Nat.or_lt_two_pow (n := 8) (by omega) (by norm_num))
      have hb2 : byteOf (v &&& 127) = v &&& 127 :=
        byteOf_of_lt (by have := and127_lt v; omega)
      have hc1 : ((v >>> 7) ||| 128) &&& 128 = 128 := or128_and128 _
      have hc2 : (v &&& 127) &&& 128 = 0 := and127_and128 v
      simp only [readU29, readU29Loop, hb1, hb2, List.cons_append, List.nil_append]
      rw [if_pos (by decide), if_neg (by rw [hc1]; decide), if_pos (by decide),
        if_pos hc2]
      rw [or128_and127, Nat.zero_shiftLeft, Nat.zero_or, and127_and127,
        and127_of_lt hs7, shl7_or_eq _ (and127_lt v)]
      rw [and127_eq_mod, Nat.shiftRight_eq_div_pow]
      norm_num
      omega
    · have h3 : v < 0x200000 := h
      have hbs : bs = [byteOf ((v >>> 14) ||| 128), byteOf ((v >>> 7) ||| 128),
          byteOf (v &&& 127)] := by
        simp [writeU29, h1, h2, h3] at hw
        exact hw.symm
      subst hbs
      have hs14 : v >>> 14 < 128 := by
        rw [Nat.shiftRight_eq_div_pow]
        omega
      have hb1 : byteOf ((v >>> 14) ||| 128) = (v >>> 14) ||| 128 :=
        byteOf_of_lt (Nat.or_lt_two_pow (n := 8) (by omega) (by norm_num))
      have hb3 : byteOf (v &&& 127) = v &&& 127 :=
        byteOf_of_lt (by have := and127_lt v; omega)
      have hc1 : ((v >>> 14) ||| 128) &&& 128 = 128 := or128_and128 _
      have hc2 : byteOf ((v >>> 7) ||| 128) &&& 128 = 128 := by
        rw [byteOf, mod256_and128, or128_and128]
      have hc3 : (v &&& 127) &&& 128 = 0 := and127_and128 v
      simp only [readU29, readU29Loop, hb1, hb3, List.cons_append, List.nil_append]
      rw [if_pos (by decide), if_neg (by rw [hc1]; decide), if_pos (by decide),
        if_neg (by rw [hc2]; decide), if_pos (by decide), if_pos hc3]
      simp only [byteOf, mod256_and127, or128_and127, Nat.zero_shiftLeft,
        Nat.zero_or, and127_and127]
      rw [and127_of_lt hs14]
      rw [shl7_or_eq _ (and127_lt (v >>> 7)), shl7_or_eq _ (and127_lt v)]
      simp only [and127_eq_mod, Nat.shiftRight_eq_div_pow]
      norm_num
      omega

/-- Claim C2 (code bug).  The eight boundary values `0, 0x7f, 0x80, 0x3fff,
0x4000, 0x1fffff, 0x200000, 0x1fffffff` do round-trip, each via the claimed
byte count, and `0x20000000` fails to encode with a range error; but the
universally quantified round-trip is false: in the 4-byte form the writer
emits its third byte from `v >> 7` while the reader places that byte at bit
offset 8, so e.g. `0x200080` is written as `80 C0 81 80`, which reads back
as `0x200180 ≠ 0x200080`. -/
theorem C2_u29_fourbyte_bug :
    (u29RoundTrips 0 = true) ∧ (u29RoundTrips 0x7f = true) ∧
    (u29RoundTrips 0x80 = true) ∧ (u29RoundTrips 0x3fff = true) ∧
    (u29RoundTrips 0x4000 = true) ∧ (u29RoundTrips 0x1fffff = true) ∧
    (u29RoundTrips 0x200000 = true) ∧ (u29RoundTrips 0x1fffffff = true) ∧
    (writeU29 0 = .ok [0x00]) ∧ (writeU29 0x7f = .ok [0x7f]) ∧
    (writeU29 0x80 = .ok [0x81, 0x00]) ∧ (writeU29 0x3fff = .ok [0xff, 0x7f]) ∧
    (writeU29 0x4000 = .ok [0x81, 0x80, 0x00]) ∧
    (writeU29 0x1fffff = .ok [0xff, 0xff, 0x7f]) ∧
    (writeU29 0x200000 = .ok [0x80, 0xc0, 0x80, 0x00]) ∧
    (writeU29 0x1fffffff = .ok [0xff, 0xff, 0xff, 0xff]) ∧
    (writeU29 0x20000000 = .error (.err "u29 overflow")) ∧
    (writeU29 0x200080 = .ok [0x80, 0xc0, 0x81, 0x80]) ∧
    (readU29 [0x80, 0xc0, 0x81, 0x80] = .ok (0x200180, [])) ∧
    ((0x200180 : Nat) ≠ 0x200080) := by
  refine ⟨?_, ?_, ?_, ?_, ?_, ?_, ?_, ?_, ?_, ?_, ?_, ?_, ?_, ?_, ?_, ?_, ?_,
    ?_, ?_, ?_⟩ <;> decide

/-! ### String codec -/

/-- Position of `s` in a cache, in insertion order.  The encoder's caches
are Go maps whose stored value is always the map's size at insertion time
(`e.stringCache[s] = len(e.stringCache)`, likewise for `objectCache`), so
each map is exactly "position in the insertion-order list". -/
def cacheIdx {α : Type} [DecidableEq α] (s : α) : List α → Option Nat
  | [] => none
  | t :: rest => if t = s then some 0 else (cacheIdx s rest).map (· + 1)

/-- `Encoder.writeString` (encoder.go lines 267-278): reference form
`U29(idx<<1)` for a cached string; otherwise `U29((len<<1)|1)` plus the raw
bytes, appending non-empty strings to the cache. -/
def writeString (s : GoStr) (cache : List GoStr) :
    Except GoErr (List Nat × List GoStr) :=
  match cacheIdx s cache with
  | some idx => (writeU29 (idx <<< 1)).map (fun bs => (bs, cache))
  | none =>
    match writeU29 ((s.length <<< 1) ||| 0x01) with
    | .error e => .error e
    | .ok bs => .ok (bs ++ s, if s = [] then cache else cache ++ [s])

/-- `Decoder.readBytes`: read exactly `n` bytes, failing with an I/O error
when the stream is shorter. -/
def readBytes (n : Nat) (input : List Nat) :
    Except GoErr (List Nat × List Nat) :=
  if n ≤ input.length then .ok (input.take n, input.drop n)
  else .error (.err "short read")

/-- The string-fetch part of `Decoder.readString` (decoder source lines
182-201): read a U29 `index`; if its low bit is clear the code indexes
`stringCache[index>>1]` with no bounds check (a panic when out of range);
otherwise `index>>1` bytes are read and the string is cached when
non-empty. -/
def readStr (cache : List GoStr) (input : List Nat) :
    Except GoErr (GoStr × List GoStr × List Nat) :=
  match readU29 input with
  | .error e => .error e
  | .ok (index, rest) =>
    if index &&& 0x01 = 0 then
      match cache[index >>> 1]? with
      | some s => .ok (s, cache, rest)
      | none => .error (.panic "runtime error: index out of range")
    else
      match readBytes (index >>> 1) rest with
      | .error e => .error e
      | .ok (bytes, rest2) =>
        .ok (bytes, if bytes = [] then cache else cache ++ [bytes], rest2)

theorem shl1_eq (a : Nat) : a <<< 1 = 2 * a := by
  rw [Nat.shiftLeft_eq]
  omega

theorem shl1_or1 (a : Nat) : (a <<< 1) ||| 1 = 2 * a + 1 := by
  have h : (1 : Nat) < 2 ^ 1 := by decide
  rw [Nat.shiftLeft_eq, Nat.mul_comm, ← Nat.mul_add_lt_is_or h a]

theorem writeU29_ok_length_pos {v : Nat} {bs : List Nat}
    (hw : writeU29 v = .ok bs) : 0 < bs.length := by
  unfold writeU29 at hw
  split at hw
  · cases hw
    simp
  · split at hw
    · cases hw
      simp
    · split at hw
      · cases hw
        simp
      · split at hw
        · cases hw
          simp
        · cases hw

theorem cacheIdx_append_self {α : Type} [DecidableEq α] {s : α}
    {cache : List α} (h : cacheIdx s cache = none) :
    cacheIdx s (cache ++ [s]) = some cache.length := by
  induction cache with
  | nil => simp [cacheIdx]
  | cons t rest ih =>
    simp only [cacheIdx, List.cons_append, List.append_eq] at h ⊢
    by_cases ht : t = s
    · simp [ht] at h
    · simp only [ht, if_false] at h ⊢
      rw [ih (Option.map_eq_none'.mp h)]
      simp

/-- Claim C7, amended.  For a non-empty string `s` not yet cached (length
below the sound 1-3 byte U29 zone, cache size likewise bounded): the first
write emits the literal `U29((len<<1)|1)` plus the raw bytes and caches
`s`; the second write emits the back-reference `U29(idx<<1)`; decoding each
form with the corresponding decoder cache yields the identical string `s`
both times; and whenever the cache index is below 64 the back-reference is
strictly shorter than the literal. -/
theorem C7_string_backref_amended (s : GoStr) (cache : List GoStr)
    (hs : s ≠ []) (hlen : s.length < 0x100000)
    (hnc : cacheIdx s cache = none) (hn : cache.length < 0x100000)
    (bs1 bs2 : List Nat)
    (hw1 : writeU29 ((s.length <<< 1) ||| 0x01) = .ok bs1)
    (hw2 : writeU29 (cache.length <<< 1) = .ok bs2) :
    writeString s cache = .ok (bs1 ++ s, cache ++ [s]) ∧
    writeString s (cache ++ [s]) = .ok (bs2, cache ++ [s]) ∧
    (∀ rest, readStr cache (bs1 ++ s ++ rest) = .ok (s, cache ++ [s], rest)) ∧
    (∀ rest, readStr (cache ++ [s]) (bs2 ++ rest) = .ok (s, cache ++ [s], rest)) ∧
    (cache.length < 64 → bs2.length < (bs1 ++ s).length) := by
  have hidx1 : (s.length <<< 1) ||| 0x01 = 2 * s.length + 1 := shl1_or1 _
  have hidx2 : cache.length <<< 1 = 2 * cache.length := shl1_eq _
  refine ⟨?_, ?_, ?_, ?_, ?_⟩
  · simp only [writeString, hnc, hw1, if_neg hs]
  · simp only [writeString, cacheIdx_append_self hnc, hw2, Except.map]
  · intro rest
    have hrd : readU29 (bs1 ++ (s ++ rest)) = .ok ((s.length <<< 1) ||| 0x01, s ++ rest) :=
      readU29_writeU29_append (by rw [hidx1]; omega) hw1 (s ++ rest)
    have hodd : ¬((s.length <<< 1) ||| 0x01) &&& 0x01 = 0 := by
      rw [hidx1, Nat.and_one_is_mod]
      omega
    have hshr : ((s.length <<< 1) ||| 0x01) >>> 1 = s.length := by
      rw [hidx1, Nat.shiftRight_eq_div_pow]
      omega
    have hrb : readBytes s.length (s ++ rest) = .ok (s, rest) := by
      unfold readBytes
      rw [if_pos (by simp), List.take_left, List.drop_left]
    simp only [readStr, List.append_assoc, hrd, if_neg hodd, hshr, hrb]
    simp [hs]
  · intro rest
    have hrd : readU29 (bs2 ++ rest) = .ok (cache.length <<< 1, rest) :=
      readU29_writeU29_append (by rw [hidx2]; omega) hw2 rest
    simp only [readStr, hrd]
    rw [if_pos (by rw [hidx2, Nat.and_one_is_mod]; omega)]
    have hshr : (cache.length <<< 1) >>> 1 = cache.length := by
      rw [hidx2, Nat.shiftRight_eq_div_pow]
      omega
    rw [hshr, List.getElem?_concat_length]
  · intro h64
    have hb2 : bs2 = [byteOf (cache.length <<< 1)] := by
      rw [writeU29, if_pos (by rw [hidx2]; omega)] at hw2
      cases hw2
      rfl
    have hb1 : 0 < bs1.length := writeU29_ok_length_pos hw1
    have hs1 : 0 < s.length := by
      cases s with
      | nil => exact absurd rfl hs
      | cons a t => simp
    rw [hb2]
    simp only [List.length_append, List.length_cons, List.length_nil]
    omega

/-- Claim C7 witness: the amended statement evaluated at `s = "a"` in a
fresh session: literal `03 61`, then the one-byte reference `00`; both
decode back to `"a"`, and `1 < 2`. -/
theorem C7_string_backref_witness :
    writeString [97] [] = .ok ([3, 97], [[97]]) ∧
    writeString [97] [[97]] = .ok ([0], [[97]]) ∧
    readStr [] [3, 97] = .ok ([97], [[97]], []) ∧
    readStr [[97]] [0] = .ok ([97], [[97]], []) ∧
    ([0] : List Nat).length < ([3, 97] : List Nat).length := by
  have h := C7_string_backref_amended [97] [] (by decide) (by decide) rfl
    (by decide) [3] [0] rfl rfl
  refine ⟨h.1, h.2.1, ?_, ?_, h.2.2.2.2 (by decide)⟩
  · have h3 := h.2.2.1 []
    simpa using h3
  · have h4 := h.2.2.2.1 []
    simpa using h4

/-- Claim C7 counterexample: in a session whose first 64 Encode calls cached
64 distinct one-byte strings, the 65th distinct string `"d"` (byte 100) is
cached at index 64; its literal form is `03 64` (2 bytes) and its
back-reference form is `U29(64<<1) = 81 00` (also 2 bytes) — not strictly
shorter, refuting the claim as universally stated. -/
theorem C7_string_backref_counterexample :
    writeString [100] ((List.range 64).map (fun c => [c])) =
      .ok ([3, 100], (List.range 64).map (fun c => [c]) ++ [[100]]) ∧
    writeString [100] ((List.range 64).map (fun c => [c]) ++ [[100]]) =
      .ok ([0x81, 0x00], (List.range 64).map (fun c => [c]) ++ [[100]]) ∧
    ¬ (([0x81, 0x00] : List Nat).length < ([3, 100] : List Nat).length) := by
  refine ⟨by decide, by decide, by decide⟩

/-! ### Encoder: value model and recursive encoder -/

/-- Encoder state (encoder.go lines 15-20 and `Reset`, lines 30-33): the
string cache and the object cache.  The object cache is keyed by
`v.Pointer()`; identities are modelled as numbers carried by the composite
values. -/
structure EncState where
  stringCache : List GoStr
  objectCache : List Nat
deriving DecidableEq, Repr

/-- The state `Reset` establishes: both caches empty. -/
def resetEnc : EncState := ⟨[], []⟩

mutual
/-- Go values as `Encoder.encode`'s `reflect.Value` dispatcher sees them
(encoder.go lines 230-263).  `vnil` is the invalid zero `reflect.Value`
produced by an untyped nil; `vptrNil` is a typed nil pointer; `vptr` is a
non-nil pointer (the dispatcher recurses into the pointee); composites
carry their `uintptr` storage identity.  A `vfloat` carries the IEEE-754
bit pattern, which is all the encoder reads of a float.  Interfaces do not
appear: the dispatcher immediately re-dispatches on the dynamic value.
Struct values are omitted from the model; every composite claim is
exercised through maps and slices, which use the same cache logic. -/
inductive GoVal where
  | vnil
  | vbool (b : Bool)
  | vint (n : Int)
  | vuint (n : Nat)
  | vfloat (bits : Nat)
  | vstr (s : GoStr)
  | vptrNil
  | vptr (v : GoVal)
  | vmap (id : Nat) (entries : GoEntries)
  | vslice (id : Nat) (elems : GoVals)

/-- Entries of a Go map, listed in the order a `MapKeys` iteration happened
to enumerate them (Go randomizes that order between runs). -/
inductive GoEntries where
  | nil
  | cons (k : GoStr) (v : GoVal) (rest : GoEntries)

/-- Elements of a Go slice, in order. -/
inductive GoVals where
  | nil
  | cons (v : GoVal) (rest : GoVals)
end

/-- `v.Len()` of a slice value. -/
def GoVals.len : GoVals → Nat
  | .nil => 0
  | .cons _ rest => rest.len + 1

/-- Number of entries of a map value. -/
def GoEntries.len : GoEntries → Nat
  | .nil => 0
  | .cons _ _ rest => rest.len + 1

/-- The 8 data bytes of `Encoder.encodeFloat` (encoder.go lines 98-107):
big-endian bytes of the 64-bit IEEE-754 pattern. -/
def floatBytes (u : Nat) : List Nat :=
  [byteOf (u >>> 56), byteOf (u >>> 48), byteOf (u >>> 40), byteOf (u >>> 32),
   byteOf (u >>> 24), byteOf (u >>> 16), byteOf (u >>> 8), byteOf u]

/-- IEEE-754 binary64 bit pattern of an integer (Go's `float64(v)`
conversion), exact for `|v| < 2^53`, which covers every value the encoder
feeds it. -/
def float64BitsOfInt (v : Int) : Nat :=
  if v = 0 then 0
  else
    let sign : Nat := if v < 0 then 1 else 0
    let m := v.natAbs
    let e := Nat.log2 m
    (sign <<< 63) ||| ((e + 1023) <<< 52) ||| (((m <<< 52) >>> e) &&& (2 ^ 52 - 1))

/-- Decimal ASCII bytes of a natural number (`strconv.FormatUint(v, 10)`). -/
def decimalDigits (n : Nat) : GoStr := (Nat.toDigits 10 n).map Char.toNat

/-- `strconv.FormatInt(v, 10)` as bytes (ASCII `-` is 45). -/
def decimalStr (v : Int) : GoStr :=
  if v < 0 then 45 :: decimalDigits v.natAbs else decimalDigits v.natAbs

/-- Go's `uint32(v)` conversion of an `int64`: truncation mod `2^32`. -/
def uint32OfInt (v : Int) : Nat := (v % 4294967296).toNat

/-- `Encoder.encodeString` (encoder.go lines 109-114). -/
def encodeString (s : GoStr) (st : EncState) :
    Except GoErr (List Nat × EncState) :=
  match writeString s st.stringCache with
  | .error e => .error e
  | .ok (bs, c) => .ok (STRING_MARKER :: bs, ⟨c, st.objectCache⟩)

/-- `Encoder.encodeInt` (encoder.go lines 85-96).  Only the *lower* bound
is tested: every `v ≥ -0x0fffffff` — including values above `0x0fffffff` —
takes the Integer branch, where Go's `uint32(v)` truncates mod `2^32`. -/
def encodeInt (v : Int) (st : EncState) : Except GoErr (List Nat × EncState) :=
  if v < -0x0fffffff then
    if v > -0x7fffffff then
      .ok (DOUBLE_MARKER :: floatBytes (float64BitsOfInt v), st)
    else
      encodeString (decimalStr v) st
  else
    match writeU29 (uint32OfInt v) with
    | .error e => .error e
    | .ok bs => .ok (INTEGER_MARKER :: bs, st)

/-- `Encoder.encodeUint` (encoder.go lines 72-83). -/
def encodeUint (v : Nat) (st : EncState) : Except GoErr (List Nat × EncState) :=
  if v ≥ 0x20000000 then
    if v ≤ 0xffffffff then
      .ok (DOUBLE_MARKER :: floatBytes (float64BitsOfInt (v : Int)), st)
    else
      encodeString (decimalStr (v : Int)) st
  else
    match writeU29 v with
    | .error e => .error e
    | .ok bs => .ok (INTEGER_MARKER :: bs, st)

mutual
/-- `Encoder.encode` (encoder.go lines 230-263).  Booleans, numbers,
strings and floats go to the primitive encoders; non-nil pointers recurse
into the pointee (struct pointees share the map logic and are modelled as
the pointee value); a nil pointer emits the Null marker.  The untyped-nil
case reaches the `default` branch, whose error message calls
`v.Type()` on the zero `reflect.Value` — a panic.

The `vmap` arm is `Encoder.encodeMap` (encoder.go lines 118-158): Object
marker; cached identity → back-reference `U29(idx<<2)` (the source comments
this as `((idx<<1)|1)<<1`, which equals `idx<<2 + 2` — matching neither the
code nor the decoder); otherwise register the identity, write the
dynamic-object trait byte `0x0b` and the empty class name, then the
key/value pairs, terminated by an empty key.  Map keys are strings by
construction in this model, so the non-string-key error branch cannot fire.

The `vslice` arm is `Encoder.encodeSlice` (encoder.go lines 199-226):
Array marker; cached identity → back-reference `U29(idx<<2)`; otherwise
register, write `U29((len<<1)|1)`, the empty associative part, then the
elements. -/
def encodeVal (v : GoVal) (st : EncState) : Except GoErr (List Nat × EncState) :=
  match v with
  | .vnil => .error (.panic "reflect: call of reflect.Value.Type on zero Value")
  | .vbool b => .ok ([if b then TRUE_MARKER else FALSE_MARKER], st)
  | .vint n => encodeInt n st
  | .vuint n => encodeUint n st
  | .vfloat bits => .ok (DOUBLE_MARKER :: floatBytes bits, st)
  | .vstr s => encodeString s st
  | .vptrNil => .ok ([NULL_MARKER], st)
  | .vptr w => encodeVal w st
  | .vmap id entries =>
    match cacheIdx id st.objectCache with
    | some idx =>
      match writeU29 (idx <<< 2) with
      | .error e => .error e
      | .ok bs => .ok (OBJECT_MARKER :: bs, st)
    | none =>
      match writeString [] st.stringCache with
      | .error e => .error e
      | .ok (bs0, c0) =>
        match encodeEntries entries ⟨c0, st.objectCache ++ [id]⟩ with
        | .error e => .error e
        | .ok (bsE, st2) =>
          match writeString [] st2.stringCache with
          | .error e => .error e
          | .ok (bs1, c1) =>
            .ok (OBJECT_MARKER :: 0x0b :: (bs0 ++ bsE ++ bs1), ⟨c1, st2.objectCache⟩)
  | .vslice id elems =>
    match cacheIdx id st.objectCache with
    | some idx =>
      match writeU29 (idx <<< 2) with
      | .error e => .error e
      | .ok bs => .ok (ARRAY_MARKER :: bs, st)
    | none =>
      match writeU29 ((elems.len <<< 1) ||| 0x01) with
      | .error e => .error e
      | .ok bsl =>
        match writeString [] st.stringCache with
        | .error e => .error e
        | .ok (bs0, c0) =>
          match encodeElems elems ⟨c0, st.objectCache ++ [id]⟩ with
          | .error e => .error e
          | .ok (bsE, st2) => .ok (ARRAY_MARKER :: (bsl ++ bs0 ++ bsE), st2)
termination_by structural v

/-- The key/value loop of `Encoder.encodeMap` (encoder.go lines 136-156):
write the key string, then the recursively encoded value. -/
def encodeEntries (entries : GoEntries) (st : EncState) :
    Except GoErr (List Nat × EncState) :=
  match entries with
  | .nil => .ok ([], st)
  | .cons k v rest =>
    match writeString k st.stringCache with
    | .error e => .error e
    | .ok (bsk, c) =>
      match encodeVal v ⟨c, st.objectCache⟩ with
      | .error e => .error e
      | .ok (bsv, st2) =>
        match encodeEntries rest st2 with
        | .error e => .error e
        | .ok (bsr, st3) => .ok (bsk ++ bsv ++ bsr, st3)
termination_by structural entries

/-- The element loop of `Encoder.encodeSlice` (encoder.go lines 216-224). -/
def encodeElems (elems : GoVals) (st : EncState) :
    Except GoErr (List Nat × EncState) :=
  match elems with
  | .nil => .ok ([], st)
  | .cons v rest =>
    match encodeVal v st with
    | .error e => .error e
    | .ok (bsv, st2) =>
      match encodeElems rest st2 with
      | .error e => .error e
      | .ok (bsr, st3) => .ok (bsv ++ bsr, st3)
termination_by structural elems
end

/-- `Encoder.encodeMap`, as the standalone function of the source; its body
is the `vmap` arm of `encodeVal`. -/
def encodeMap (id : Nat) (entries : GoEntries) (st : EncState) :
    Except GoErr (List Nat × EncState) :=
  encodeVal (.vmap id entries) st

/-- `Encoder.encodeSlice`, as the standalone function of the source; its
body is the `vslice` arm of `encodeVal`. -/
def encodeSlice (id : Nat) (elems : GoVals) (st : EncState) :
    Except GoErr (List Nat × EncState) :=
  encodeVal (.vslice id elems) st

/-- `Encoder.Encode` from a freshly `Reset` encoder. -/
def encodeTop (v : GoVal) : Except GoErr (List Nat × EncState) :=
  encodeVal v resetEnc

/-- Claim C4 counterexample: encoding an untyped nil does not emit the
Null marker and succeed — the dispatcher's `default` branch builds its
error message with `v.Type()` on the zero `reflect.Value`, which
panics. -/
theorem C4_untyped_nil_counterexample :
    encodeTop .vnil =
      .error (.panic "reflect: call of reflect.Value.Type on zero Value") ∧
    encodeTop .vnil ≠ .ok ([NULL_MARKER], resetEnc) := by
  constructor
  · rfl
  · intro h
    cases h

/-- Claim C4, amended: a *typed* nil pointer encodes to exactly the single
Null marker byte and succeeds (with the caches untouched); an untyped nil
instead reaches the unsupported-type branch, which panics while formatting
its error message. -/
theorem C4_nil_amended :
    (∀ st, encodeVal .vptrNil st = .ok ([NULL_MARKER], st)) ∧
    (∀ st, encodeVal .vnil st =
      .error (.panic "reflect: call of reflect.Value.Type on zero Value")) := by
  exact ⟨fun st => rfl, fun st => rfl⟩

/-- Claim C4 witness: the amended statement evaluated at the freshly reset
encoder state. -/
theorem C4_nil_witness :
    encodeVal .vptrNil resetEnc = .ok ([NULL_MARKER], resetEnc) ∧
    encodeVal .vnil resetEnc =
      .error (.panic "reflect: call of reflect.Value.Type on zero Value") :=
  ⟨C4_nil_amended.1 resetEnc, C4_nil_amended.2 resetEnc⟩

/-! ### Decoder -/

/-- Values a decode into a dynamic (`interface{}`) destination produces:
`decode` stores a `bool`, the raw `uint32` of an Integer, the float, the
string, a `[]AMFAny` or a `map[string]AMFAny`; a Null leaves the nil
interface in place (`anull`). -/
inductive AMFVal where
  | anull
  | abool (b : Bool)
  | auint (u : Nat)
  | afloat (bits : Nat)
  | astr (s : GoStr)
  | alist (elems : List AMFVal)
  | amap (entries : List (GoStr × AMFVal))

/-- Decoder state (decoder source lines 17-32).  The object cache stores
the composite values registered when their trait information is read; in
Go those entries alias the objects still being filled — the claims settled
here only ever resolve *out-of-range* object references, for which only
the cache length matters. -/
structure DecState where
  stringCache : List GoStr
  objectCache : List AMFVal

/-- The state `Decoder.Reset` establishes. -/
def resetDec : DecState := ⟨[], []⟩

/-- Destination kinds distinguished by the decoder's
`reflect.Value.Kind()` dispatch. -/
inductive DestKind where
  | dint
  | duint
  | dbool
  | dstr
  | dfloat
  | ddynamic
  | dptr
  | dslice
  | dmap
  | dstruct
deriving DecidableEq, Repr

/-- What a primitive decode handler stores into its destination slot. -/
inductive SetOp where
  | setInt (n : Int)
  | setUint (n : Nat)
  | setAny (v : AMFVal)

/-- Go's `int32(n)` reinterpretation of unsigned arithmetic: reduce mod
`2^32`, values at or above `2^31` are negative. -/
def int32Cast (n : Nat) : Int :=
  if n % 4294967296 < 2147483648 then ((n % 4294967296 : Nat) : Int)
  else ((n % 4294967296 : Nat) : Int) - 4294967296

/-- `Decoder.readInteger` (decoder source lines 157-178): read U29 `uv`;
`vv := int32(uv)`, replaced by `int32(uv - 0x20000000)` (uint32 wrap-around
subtraction) when `uv > 0x0fffffff`; signed destinations receive `vv`,
unsigned destinations the raw `uv`, a dynamic destination stores `uv`; any
other kind is a type-mismatch error. -/
def readInteger (k : DestKind) (input : List Nat) :
    Except GoErr (SetOp × List Nat) :=
  match readU29 input with
  | .error e => .error e
  | .ok (uv, rest) =>
    let vv : Int :=
      if uv > 0x0fffffff then
        int32Cast ((uv + (4294967296 - 0x20000000)) % 4294967296)
      else int32Cast uv
    match k with
    | .dint => .ok (.setInt vv, rest)
    | .duint => .ok (.setUint uv, rest)
    | .ddynamic => .ok (.setAny (.auint uv), rest)
    | _ => .error (.err "invalid type for integer")

/-- Kinds for which `reflect.Value.IsNil` is legal; calling `IsNil` on a
value of any other kind here panics. -/
def kindNilable : DestKind → Bool
  | .ddynamic => true
  | .dslice => true
  | .dmap => true
  | .dptr => true
  | _ => false

/-- A destination slot: its kind, whether it currently holds nil, and
whether it is addressable (`reflect.Value.CanSet`).  Values straight from
`reflect.ValueOf` or `reflect.New` are not addressable; struct fields,
slice elements and `Elem()` pointees are. -/
structure Dest where
  kind : DestKind
  isNil : Bool
  addressable : Bool
deriving DecidableEq, Repr

/-- The `NULL_MARKER` branch of `Decoder.decode` (decoder source lines
69-81): `value.IsNil()` runs before the kind switch — a panic for every
non-nilable kind, which makes the `default` type-mismatch branch below it
unreachable; a nil destination is left as is and the call succeeds;
otherwise the switch clears nilable destinations with
`value.Set(reflect.Zero(...))`, a panic when the value is unaddressable. -/
def decodeNullInto (d : Dest) : Except GoErr Unit :=
  if kindNilable d.kind = false then
    .error (.panic "reflect: call of reflect.Value.IsNil on non-nilable value")
  else if d.isNil then
    .ok ()
  else
    match d.kind with
    | .ddynamic | .dslice | .dmap | .dptr =>
      if d.addressable then .ok ()
      else .error (.panic "reflect: reflect.Value.Set using unaddressable value")
    | _ => .error (.err "invalid type for nil")

/-- Big-endian accumulation of `Decoder.readFloat` (decoder source lines
136-139): `n = n<<8 | b` over the 8 bytes. -/
def beNat (bytes : List Nat) : Nat :=
  bytes.foldl (fun n b => (n <<< 8) ||| b) 0

mutual
/-- `Decoder.decode` dispatch into a clean dynamic destination — an
addressable nil interface, the shape every nested dynamic slot has after
the source's pointer/interface unwrap step (decoder source lines 63-115).
A Null marker leaves the nil interface in place.  The object and array
arms follow `readObject`/`readSlice` (lines 228-354) with an interface
target: a U29 with clear low bit resolves an object back-reference by
indexing the cache slice *unchecked* (a panic when out of range);
otherwise the trait must be the anonymous dynamic one (`0x0b`, or the
length for arrays) followed by the `0x01` sentinel; the fresh map/slice is
registered in the object cache before its contents are decoded.  `fuel`
only bounds recursion depth (each step consumes one unit); every run in
this development supplies ample fuel. -/
def decodeAny (fuel : Nat) (input : List Nat) (st : DecState) :
    Except GoErr (AMFVal × DecState × List Nat) :=
  match fuel with
  | 0 => .error (.err "out of fuel")
  | fuel + 1 =>
    match input with
    | [] => .error (.err "short read")
    | marker :: rest =>
      if marker = NULL_MARKER then .ok (.anull, st, rest)
      else if marker = FALSE_MARKER then .ok (.abool false, st, rest)
      else if marker = TRUE_MARKER then .ok (.abool true, st, rest)
      else if marker = STRING_MARKER then
        match readStr st.stringCache rest with
        | .error e => .error e
        | .ok (s, c, rest2) => .ok (.astr s, ⟨c, st.objectCache⟩, rest2)
      else if marker = DOUBLE_MARKER then
        match readBytes 8 rest with
        | .error e => .error e
        | .ok (bytes, rest2) => .ok (.afloat (beNat bytes), st, rest2)
      else if marker = INTEGER_MARKER then
        match readU29 rest with
        | .error e => .error e
        | .ok (uv, rest2) => .ok (.auint uv, st, rest2)
      else if marker = ARRAY_MARKER then
        match readU29 rest with
        | .error e => .error e
        | .ok (index, rest2) =>
          if index &&& 0x01 = 0 then
            match st.objectCache[index >>> 1]? with
            | some v => .ok (v, st, rest2)
            | none => .error (.panic "runtime error: index out of range")
          else
            match rest2 with
            | [] => .error (.err "short read")
            | sep :: rest3 =>
              if sep = 0x01 then
                match decListElems fuel (index >>> 1) rest3
                    ⟨st.stringCache,
                     st.objectCache ++ [.alist (List.replicate (index >>> 1) .anull)]⟩ with
                | .error e => .error e
                | .ok (vs, st2, rest4) => .ok (.alist vs, st2, rest4)
              else .error (.err "ECMA array not allowed")
      else if marker = OBJECT_MARKER then
        match readU29 rest with
        | .error e => .error e
        | .ok (index, rest2) =>
          if index &&& 0x01 = 0 then
            match st.objectCache[index >>> 1]? with
            | some v => .ok (v, st, rest2)
            | none => .error (.panic "runtime error: index out of range")
          else if index ≠ 0x0b then .error (.err "invalid object type")
          else
            match rest2 with
            | [] => .error (.err "short read")
            | sep :: rest3 =>
              if sep = 0x01 then
                match decMapEntries fuel rest3
                    ⟨st.stringCache, st.objectCache ++ [.amap []]⟩ with
                | .error e => .error e
                | .ok (kvs, st2, rest4) => .ok (.amap kvs, st2, rest4)
              else .error (.err "typed object not supported")
      else .error (.err "unsupported marker")
termination_by structural fuel

/-- The key/value loop of `readObject`'s map branch (decoder source lines
269-283): read a key string, stop on the empty sentinel; otherwise decode
the value through `elem := reflect.New(elemType); d.decode(elem)` — for a
Null marker that call panics (`Set` on the unaddressable `New` pointer);
any other marker unwraps `elem` to the fresh addressable interface and
proceeds as `decodeAny`. -/
def decMapEntries (fuel : Nat) (input : List Nat) (st : DecState) :
    Except GoErr (List (GoStr × AMFVal) × DecState × List Nat) :=
  match fuel with
  | 0 => .error (.err "out of fuel")
  | fuel + 1 =>
    match readStr st.stringCache input with
    | .error e => .error e
    | .ok (k, c, rest) =>
      if k = [] then .ok ([], ⟨c, st.objectCache⟩, rest)
      else
        match rest with
        | [] => .error (.err "short read")
        | m :: _ =>
          if m = NULL_MARKER then
            .error (.panic "reflect: reflect.Value.Set using unaddressable value")
          else
            match decodeAny fuel rest ⟨c, st.objectCache⟩ with
            | .error e => .error e
            | .ok (v, st2, rest2) =>
              match decMapEntries fuel rest2 st2 with
              | .error e => .error e
              | .ok (kvs, st3, rest3) => .ok ((k, v) :: kvs, st3, rest3)
termination_by structural fuel

/-- The element loop of `readSlice` (decoder source lines 348-352) for a
fresh `[]AMFAny`: decode each of the `n` elements in order into its
addressable nil-interface slot. -/
def decListElems (fuel : Nat) (n : Nat) (input : List Nat) (st : DecState) :
    Except GoErr (List AMFVal × DecState × List Nat) :=
  match fuel with
  | 0 => .error (.err "out of fuel")
  | fuel + 1 =>
    match n with
    | 0 => .ok ([], st, input)
    | n + 1 =>
      match decodeAny fuel input st with
      | .error e => .error e
      | .ok (v, st2, rest) =>
        match decListElems fuel n rest st2 with
        | .error e => .error e
        | .ok (vs, st3, rest2) => .ok (v :: vs, st3, rest2)
termination_by structural fuel
end

/-- Claim C1 (code bug).  Encoding a map whose two keys `"a"`, `"b"` alias
one shared (empty) slice: the outer map is registered at object-cache
index 0, the slice at index 1; the slice's second occurrence is written as
the back-reference `U29(1<<2) = 04`.  The decoder, however, resolves a
reference `index` at cache position `index>>1 = 2`, and at that point its
object cache holds exactly 2 entries — an unchecked out-of-range slice
index, i.e. a panic.  The claimed reconstruction of sharing does not
happen. -/
theorem C1_object_backref_bug :
    encodeTop (.vmap 100 (.cons [97] (.vslice 200 .nil)
        (.cons [98] (.vslice 200 .nil) .nil))) =
      .ok ([0x0a, 0x0b, 0x01, 0x03, 0x61, 0x09, 0x01, 0x01, 0x03, 0x62,
            0x09, 0x04, 0x01], ⟨[[97], [98]], [100, 200]⟩) ∧
    decodeAny 20 [0x0a, 0x0b, 0x01, 0x03, 0x61, 0x09, 0x01, 0x01, 0x03, 0x62,
        0x09, 0x04, 0x01] resetDec =
      .error (.panic "runtime error: index out of range") ∧
    isReturnedError (decodeAny 20 [0x0a, 0x0b, 0x01, 0x03, 0x61, 0x09, 0x01,
        0x01, 0x03, 0x62, 0x09, 0x04, 0x01] resetDec) = false := by
  exact ⟨rfl, rfl, rfl⟩

/-- Claim C3 (code bug).  `encodeInt` tests only the lower bound, so
`0x10000000` — outside the claimed Integer range — still takes the Integer
branch: marker `04` plus `U29(0x10000000)`, not the claimed Double
fallback; decoding that wire form into a signed destination yields
`-0x10000000`, not the original value. -/
theorem C3_encodeInt_upper_bound_bug :
    encodeInt 0x10000000 resetEnc =
      .ok (INTEGER_MARKER :: [0xc0, 0x80, 0x80, 0x00], resetEnc) ∧
    INTEGER_MARKER ≠ DOUBLE_MARKER ∧
    readInteger .dint [0xc0, 0x80, 0x80, 0x00] = .ok (.setInt (-0x10000000), []) ∧
    ((-0x10000000 : Int) ≠ 0x10000000) := by
  exact ⟨rfl, by decide, rfl, by decide⟩

/-- Claim C5 (code bug).  A back-reference index that does not resolve to a
registered cache entry is looked up by plain slice indexing with no bounds
check: `U29 02` is reference index 1 against an empty cache, and the
string, object and array reference paths all panic — a crash, not a
returned error. -/
theorem C5_unresolved_backref_panics :
    readStr [] [0x02] = .error (.panic "runtime error: index out of range") ∧
    decodeAny 10 [0x06, 0x02] resetDec =
      .error (.panic "runtime error: index out of range") ∧
    decodeAny 10 [0x0a, 0x02] resetDec =
      .error (.panic "runtime error: index out of range") ∧
    decodeAny 10 [0x09, 0x02] resetDec =
      .error (.panic "runtime error: index out of range") ∧
    isReturnedError (decodeAny 10 [0x06, 0x02] resetDec) = false := by
  exact ⟨rfl, rfl, rfl, rfl, rfl⟩

/-- Claim C6 (code bug).  Decoding a Null: nilable destinations are indeed
cleared/left absent with success, but a non-nilable destination (int, bool,
string) panics inside `value.IsNil()` *before* the kind switch, so the
code's own `invalid type ... for nil` type-mismatch branch is dead code —
the claimed error return never happens. -/
theorem C6_null_nonnilable_panics :
    decodeNullInto ⟨.ddynamic, true, true⟩ = .ok () ∧
    decodeNullInto ⟨.dmap, false, true⟩ = .ok () ∧
    decodeNullInto ⟨.dslice, false, true⟩ = .ok () ∧
    decodeNullInto ⟨.dint, false, true⟩ =
      .error (.panic "reflect: call of reflect.Value.IsNil on non-nilable value") ∧
    decodeNullInto ⟨.dbool, false, true⟩ =
      .error (.panic "reflect: call of reflect.Value.IsNil on non-nilable value") ∧
    decodeNullInto ⟨.dstr, false, true⟩ =
      .error (.panic "reflect: call of reflect.Value.IsNil on non-nilable value") ∧
    isReturnedError (decodeNullInto ⟨.dint, false, true⟩) = false := by
  exact ⟨rfl, rfl, rfl, rfl, rfl, rfl, rfl⟩

/-- Claim C8 (confirmed).  For an Integer-marker payload whose U29 reads as
`u`: the signed interpretation is `u - 0x20000000` exactly when
`u > 0x0fffffff` (29-bit two's complement), else `u`; a signed destination
receives that interpretation, an unsigned destination the raw `u`, and a
dynamic destination stores `u`. -/
theorem C8_readInteger_semantics (input : List Nat) (u : Nat)
    (rest : List Nat) (hr : readU29 input = .ok (u, rest))
    (hu : u < 0x20000000) :
    readInteger .dint input =
      .ok (.setInt (if u > 0x0fffffff then (u : Int) - 0x20000000
        else (u : Int)), rest) ∧
    readInteger .duint input = .ok (.setUint u, rest) ∧
    readInteger .ddynamic input = .ok (.setAny (.auint u), rest) := by
  have hv : (if u > 0x0fffffff then
      int32Cast ((u + (4294967296 - 0x20000000)) % 4294967296)
      else int32Cast u) =
      (if u > 0x0fffffff then (u : Int) - 0x20000000 else (u : Int)) := by
    by_cases hgt : u > 0x0fffffff
    · rw [if_pos hgt, if_pos hgt]
      unfold int32Cast
      have hm : (u + (4294967296 - 0x20000000)) % 4294967296 % 4294967296 =
          u + 3758096384 := by omega
      rw [if_neg (by omega), hm]
      push_cast
      omega
    · rw [if_neg hgt, if_neg hgt]
      unfold int32Cast
      have hm : u % 4294967296 = u := by omega
      rw [if_pos (by omega), hm]
  refine ⟨?_, ?_, ?_⟩ <;> simp only [readInteger, hr, hv]

/-- Claim C8 witness: the one-byte payload `01` reads as `u = 1` and lands
as signed 1, unsigned 1, and dynamic `uint32(1)`. -/
theorem C8_readInteger_witness :
    readU29 [0x01] = .ok (1, []) ∧
    readInteger .dint [0x01] = .ok (.setInt 1, []) ∧
    readInteger .duint [0x01] = .ok (.setUint 1, []) ∧
    readInteger .ddynamic [0x01] = .ok (.setAny (.auint 1), []) := by
  have h := C8_readInteger_semantics [0x01] 1 [] rfl (by decide)
  refine ⟨rfl, ?_, h.2.1, h.2.2⟩
  have h1 := h.1
  simpa using h1

/-! ### Determinism modulo map iteration order (claim C10) -/

/-- Permutations of a map's entry list: the orders in which Go's
randomized map iteration can enumerate the same set of entries. -/
inductive PermEntries : GoEntries → GoEntries → Prop where
  | nil : PermEntries .nil .nil
  | cons (k : GoStr) (v : GoVal) {xs ys : GoEntries} :
      PermEntries xs ys → PermEntries (.cons k v xs) (.cons k v ys)
  | swap (k1 : GoStr) (v1 : GoVal) (k2 : GoStr) (v2 : GoVal) (xs : GoEntries) :
      PermEntries (.cons k1 v1 (.cons k2 v2 xs))
        (.cons k2 v2 (.cons k1 v1 xs))
  | trans {xs ys zs : GoEntries} :
      PermEntries xs ys → PermEntries ys zs → PermEntries xs zs

mutual
/-- Two `GoVal`s are presentations of the *same* Go value, differing only
in the enumeration order of each map's entries — exactly the degree of
freedom two `Encode` runs on one value have, since Go randomizes map
iteration order between runs (encoder.go line 136, `v.MapKeys()`). -/
inductive SameVal : GoVal → GoVal → Prop where
  | vnil : SameVal .vnil .vnil
  | vbool (b : Bool) : SameVal (.vbool b) (.vbool b)
  | vint (n : Int) : SameVal (.vint n) (.vint n)
  | vuint (n : Nat) : SameVal (.vuint n) (.vuint n)
  | vfloat (u : Nat) : SameVal (.vfloat u) (.vfloat u)
  | vstr (s : GoStr) : SameVal (.vstr s) (.vstr s)
  | vptrNil : SameVal .vptrNil .vptrNil
  | vptr {v w : GoVal} : SameVal v w → SameVal (.vptr v) (.vptr w)
  | vslice (id : Nat) {xs ys : GoVals} :
      SameVals xs ys → SameVal (.vslice id xs) (.vslice id ys)
  | vmap (id : Nat) {l m l' : GoEntries} :
      PermEntries l m → SameEntries m l' →
      SameVal (.vmap id l) (.vmap id l')

/-- Pointwise `SameVal` on entry lists with identical keys and order. -/
inductive SameEntries : GoEntries → GoEntries → Prop where
  | nil : SameEntries .nil .nil
  | cons (k : GoStr) {v w : GoVal} {xs ys : GoEntries} :
      SameVal v w → SameEntries xs ys →
      SameEntries (.cons k v xs) (.cons k w ys)

/-- Pointwise `SameVal` on element lists. -/
inductive SameVals : GoVals → GoVals → Prop where
  | nil : SameVals .nil .nil
  | cons {v w : GoVal} {xs ys : GoVals} :
      SameVal v w → SameVals xs ys → SameVals (.cons v xs) (.cons w ys)
end

mutual
/-- Every mapping inside the value has at most one entry (so its iteration
order is unique). -/
def GoVal.smallMaps : GoVal → Bool
  | .vptr v => GoVal.smallMaps v
  | .vmap _ entries =>
    decide (GoEntries.len entries ≤ 1) && GoEntries.smallMaps entries
  | .vslice _ elems => GoVals.smallMaps elems
  | _ => true
termination_by structural v => v

/-- `smallMaps` over a map's entry values. -/
def GoEntries.smallMaps : GoEntries → Bool
  | .nil => true
  | .cons _ v rest => GoVal.smallMaps v && GoEntries.smallMaps rest
termination_by structural entries => entries

/-- `smallMaps` over a slice's elements. -/
def GoVals.smallMaps : GoVals → Bool
  | .nil => true
  | .cons v rest => GoVal.smallMaps v && GoVals.smallMaps rest
termination_by structural elems => elems
end

theorem permEntries_len {l m : GoEntries} (h : PermEntries l m) :
    l.len = m.len := by
  induction h with
  | nil => rfl
  | cons k v _ ih => simp [GoEntries.len, ih]
  | swap k1 v1 k2 v2 xs => simp [GoEntries.len]
  | trans _ _ ih1 ih2 => rw [ih1, ih2]

theorem permEntries_eq_of_short {l m : GoEntries} (h : PermEntries l m)
    (hlen : l.len ≤ 1) : l = m := by
  induction h with
  | nil => rfl
  | cons k v h ih =>
    rw [ih (by simp [GoEntries.len] at hlen; omega)]
  | swap k1 v1 k2 v2 xs =>
    exact absurd hlen (by simp [GoEntries.len])
  | trans h1 h2 ih1 ih2 =>
    have e1 := ih1 hlen
    subst e1
    exact ih2 hlen

mutual
theorem sameVal_eq_of_small (v : GoVal) : ∀ {w : GoVal}, SameVal v w →
    GoVal.smallMaps v = true → v = w := by
  cases v with
  | vnil => intro w h _; cases h; rfl
  | vbool b => intro w h _; cases h; rfl
  | vint n => intro w h _; cases h; rfl
  | vuint n => intro w h _; cases h; rfl
  | vfloat u => intro w h _; cases h; rfl
  | vstr s => intro w h _; cases h; rfl
  | vptrNil => intro w h _; cases h; rfl
  | vptr v' =>
    intro w h hs
    cases h with
    | vptr hvw => exact congrArg GoVal.vptr (sameVal_eq_of_small v' hvw hs)
  | vslice id xs =>
    intro w h hs
    cases h
    rename_i ys hxs
    exact congrArg (GoVal.vslice id) (sameVals_eq_of_small xs hxs hs)
  | vmap id l =>
    intro w h hs
    cases h
    rename_i m l' hsame hperm
    simp only [GoVal.smallMaps, Bool.and_eq_true, decide_eq_true_eq] at hs
    obtain ⟨hlen, hsm⟩ := hs
    have hlm := permEntries_eq_of_short hperm hlen
    rw [← hlm] at hsame
    exact congrArg (GoVal.vmap id) (sameEntries_eq_of_small l hsame hsm)
termination_by structural v

theorem sameEntries_eq_of_small (l : GoEntries) : ∀ {l' : GoEntries},
    SameEntries l l' → GoEntries.smallMaps l = true → l = l' := by
  cases l with
  | nil => intro l' h _; cases h; rfl
  | cons k v rest =>
    intro l' h hs
    cases h with
    | cons _ hv hrest =>
      simp only [GoEntries.smallMaps, Bool.and_eq_true] at hs
      rw [sameVal_eq_of_small v hv hs.1,
        sameEntries_eq_of_small rest hrest hs.2]
termination_by structural l

theorem sameVals_eq_of_small (xs : GoVals) : ∀ {ys : GoVals},
    SameVals xs ys → GoVals.smallMaps xs = true → xs = ys := by
  cases xs with
  | nil => intro ys h _; cases h; rfl
  | cons v rest =>
    intro ys h hs
    cases h with
    | cons hv hrest =>
      simp only [GoVals.smallMaps, Bool.and_eq_true] at hs
      rw [sameVal_eq_of_small v hv hs.1, sameVals_eq_of_small rest hrest hs.2]
termination_by structural xs
end

/-- Claim C10 counterexample.  The map `{"a": true, "b": false}` presented
in its two iteration orders is the same Go value (`SameVal`), yet the two
Encode runs from freshly reset encoders emit different byte streams — the
key/value pairs appear in enumeration order. -/
theorem C10_determinism_counterexample :
    SameVal (.vmap 1 (.cons [97] (.vbool true) (.cons [98] (.vbool false) .nil)))
      (.vmap 1 (.cons [98] (.vbool false) (.cons [97] (.vbool true) .nil))) ∧
    encodeTop (.vmap 1 (.cons [97] (.vbool true)
        (.cons [98] (.vbool false) .nil))) =
      .ok ([0x0a, 0x0b, 0x01, 0x03, 0x61, 0x03, 0x03, 0x62, 0x02, 0x01],
        ⟨[[97], [98]], [1]⟩) ∧
    encodeTop (.vmap 1 (.cons [98] (.vbool false)
        (.cons [97] (.vbool true) .nil))) =
      .ok ([0x0a, 0x0b, 0x01, 0x03, 0x62, 0x02, 0x03, 0x61, 0x03, 0x01],
        ⟨[[98], [97]], [1]⟩) ∧
    ([0x0a, 0x0b, 0x01, 0x03, 0x61, 0x03, 0x03, 0x62, 0x02, 0x01] : List Nat) ≠
      [0x0a, 0x0b, 0x01, 0x03, 0x62, 0x02, 0x03, 0x61, 0x03, 0x01] := by
  refine ⟨?_, rfl, rfl, by decide⟩
  exact SameVal.vmap 1
    (PermEntries.swap [97] (.vbool true) [98] (.vbool false) .nil)
    (SameEntries.cons [98] (SameVal.vbool false)
      (SameEntries.cons [97] (SameVal.vbool true) SameEntries.nil))

/-- Claim C10, amended: encoding is a function of the value *and* of the
iteration order of its maps; two Encode runs from freshly Reset encoders
produce byte-identical streams whenever every mapping in the value has at
most one entry, but a mapping with two or more entries may be enumerated
in different orders and the streams then differ (see the
counterexample). -/
theorem C10_determinism_amended (v w : GoVal) (st : EncState)
    (h : SameVal v w) (hs : GoVal.smallMaps v = true) :
    encodeVal v st = encodeVal w st := by
  rw [sameVal_eq_of_small v h hs]

/-- Claim C10 witness: two runs on the singleton map `{"a": true}` agree. -/
theorem C10_determinism_witness :
    SameVal (.vmap 1 (.cons [97] (.vbool true) .nil))
      (.vmap 1 (.cons [97] (.vbool true) .nil)) ∧
    GoVal.smallMaps (.vmap 1 (.cons [97] (.vbool true) .nil)) = true ∧
    encodeVal (.vmap 1 (.cons [97] (.vbool true) .nil)) resetEnc =
      encodeVal (.vmap 1 (.cons [97] (.vbool true) .nil)) resetEnc := by
  have hsv : SameVal (.vmap 1 (.cons [97] (.vbool true) .nil))
      (.vmap 1 (.cons [97] (.vbool true) .nil)) :=
    SameVal.vmap 1 (PermEntries.cons [97] (.vbool true) PermEntries.nil)
      (SameEntries.cons [97] (SameVal.vbool true) SameEntries.nil)
  exact ⟨hsv, rfl,
    C10_determinism_amended _ _ resetEnc hsv rfl⟩

/-! ### The string caches never hold the empty string (claim C9) -/

/-- The new cache is the old cache with only non-empty strings appended at
its end — i.e. non-empty literals are added in order of first appearance
and nothing else ever enters the cache. -/
def CacheExtends (old new : List GoStr) : Prop :=
  ∃ tail, new = old ++ tail ∧ ∀ s ∈ tail, s ≠ []

theorem cacheExtends_refl (c : List GoStr) : CacheExtends c c :=
  ⟨[], by simp, by simp⟩

theorem cacheExtends_trans {a b c : List GoStr} (h1 : CacheExtends a b)
    (h2 : CacheExtends b c) : CacheExtends a c := by
  obtain ⟨t1, he1, hn1⟩ := h1
  obtain ⟨t2, he2, hn2⟩ := h2
  refine ⟨t1 ++ t2, by rw [he2, he1, List.append_assoc], ?_⟩
  intro s hsmem
  rcases List.mem_append.mp hsmem with hm | hm
  · exact hn1 s hm
  · exact hn2 s hm

theorem writeString_cacheExtends {s : GoStr} {cache : List GoStr}
    {bs : List Nat} {c' : List GoStr}
    (h : writeString s cache = .ok (bs, c')) : CacheExtends cache c' := by
  unfold writeString at h
  cases hci : cacheIdx s cache with
  | some idx =>
    rw [hci] at h
    cases hwu : writeU29 (idx <<< 1) with
    | error e =>
      simp only [hwu, Except.map] at h
      cases h
    | ok bs2 =>
      simp only [hwu, Except.map, Except.ok.injEq, Prod.mk.injEq] at h
      rw [← h.2]
      exact cacheExtends_refl _
  | none =>
    rw [hci] at h
    cases hwu : writeU29 ((s.length <<< 1) ||| 0x01) with
    | error e =>
      simp only [hwu] at h
      cases h
    | ok bs2 =>
      simp only [hwu, Except.ok.injEq, Prod.mk.injEq] at h
      rw [← h.2]
      by_cases hs : s = []
      · rw [if_pos hs]
        exact cacheExtends_refl _
      · rw [if_neg hs]
        exact ⟨[s], rfl, by simpa using hs⟩

theorem readStr_cacheExtends {cache : List GoStr} {input : List Nat}
    {s : GoStr} {c' : List GoStr} {rest : List Nat}
    (h : readStr cache input = .ok (s, c', rest)) : CacheExtends cache c' := by
  unfold readStr at h
  cases hru : readU29 input with
  | error e =>
    simp only [hru] at h
    cases h
  | ok p =>
    obtain ⟨index, rest0⟩ := p
    simp only [hru] at h
    by_cases href : index &&& 0x01 = 0
    · rw [if_pos href] at h
      cases hg : cache[index >>> 1]? with
      | some t => simp only [hg, Except.ok.injEq, Prod.mk.injEq] at h
                  rw [← h.2.1]
                  exact cacheExtends_refl _
      | none =>
        simp only [hg] at h
        cases h
    · rw [if_neg href] at h
      cases hrb : readBytes (index >>> 1) rest0 with
      | error e =>
        simp only [hrb] at h
        cases h
      | ok p2 =>
        obtain ⟨bytes, rest2⟩ := p2
        simp only [hrb, Except.ok.injEq, Prod.mk.injEq] at h
        rw [← h.2.1]
        by_cases hb : bytes = []
        · rw [if_pos hb]
          exact cacheExtends_refl _
        · rw [if_neg hb]
          exact ⟨[bytes], rfl, by simpa using hb⟩

theorem encodeString_cacheExtends {s : GoStr} {st : EncState}
    {bs : List Nat} {st' : EncState}
    (h : encodeString s st = .ok (bs, st')) :
    CacheExtends st.stringCache st'.stringCache := by
  unfold encodeString at h
  cases hws : writeString s st.stringCache with
  | error e =>
    simp only [hws] at h
    cases h
  | ok p =>
    obtain ⟨bs2, c⟩ := p
    simp only [hws] at h
    cases h
    exact writeString_cacheExtends hws

theorem encodeInt_cacheExtends {n : Int} {st : EncState}
    {bs : List Nat} {st' : EncState}
    (h : encodeInt n st = .ok (bs, st')) :
    CacheExtends st.stringCache st'.stringCache := by
  unfold encodeInt at h
  split at h
  · split at h
    · cases h
      exact cacheExtends_refl _
    · exact encodeString_cacheExtends h
  · cases hwu : writeU29 (uint32OfInt n) with
    | error e =>
      simp only [hwu] at h
      cases h
    | ok bs2 =>
      simp only [hwu] at h
      cases h
      exact cacheExtends_refl _

theorem encodeUint_cacheExtends {n : Nat} {st : EncState}
    {bs : List Nat} {st' : EncState}
    (h : encodeUint n st = .ok (bs, st')) :
    CacheExtends st.stringCache st'.stringCache := by
  unfold encodeUint at h
  split at h
  · split at h
    · cases h
      exact cacheExtends_refl _
    · exact encodeString_cacheExtends h
  · cases hwu : writeU29 n with
    | error e =>
      simp only [hwu] at h
      cases h
    | ok bs2 =>
      simp only [hwu] at h
      cases h
      exact cacheExtends_refl _

mutual
theorem encodeVal_cacheExtends (v : GoVal) : ∀ {st : EncState}
    {bs : List Nat} {st' : EncState}, encodeVal v st = .ok (bs, st') →
    CacheExtends st.stringCache st'.stringCache := by
  cases v with
  | vnil => intro st bs st' h; cases h
  | vbool b =>
    intro st bs st' h
    cases h
    exact cacheExtends_refl _
  | vint n => intro st bs st' h; exact encodeInt_cacheExtends h
  | vuint n => intro st bs st' h; exact encodeUint_cacheExtends h
  | vfloat u =>
    intro st bs st' h
    cases h
    exact cacheExtends_refl _
  | vstr s => intro st bs st' h; exact encodeString_cacheExtends h
  | vptrNil =>
    intro st bs st' h
    cases h
    exact cacheExtends_refl _
  | vptr w => intro st bs st' h; exact encodeVal_cacheExtends w h
  | vmap id entries =>
    intro st bs st' h
    simp only [encodeVal] at h
    cases hci : cacheIdx id st.objectCache with
    | some idx =>
      rw [hci] at h
      cases hwu : writeU29 (idx <<< 2) with
      | error e =>
        simp only [hwu] at h
        cases h
      | ok bsu =>
        simp only [hwu] at h
        cases h
        exact cacheExtends_refl _
    | none =>
      rw [hci] at h
      cases hws0 : writeString [] st.stringCache with
      | error e =>
        simp only [hws0] at h
        cases h
      | ok p0 =>
        obtain ⟨bs0, c0⟩ := p0
        simp only [hws0] at h
        cases hee : encodeEntries entries ⟨c0, st.objectCache ++ [id]⟩ with
        | error e =>
          simp only [hee] at h
          cases h
        | ok p1 =>
          obtain ⟨bsE, st2⟩ := p1
          simp only [hee] at h
          cases hws1 : writeString [] st2.stringCache with
          | error e =>
            simp only [hws1] at h
            cases h
          | ok p2 =>
            obtain ⟨bs1, c1⟩ := p2
            simp only [hws1] at h
            cases h
            exact cacheExtends_trans (cacheExtends_trans
                (writeString_cacheExtends hws0)
                (encodeEntries_cacheExtends entries hee))
              (writeString_cacheExtends hws1)
  | vslice id elems =>
    intro st bs st' h
    simp only [encodeVal] at h
    cases hci : cacheIdx id st.objectCache with
    | some idx =>
      rw [hci] at h
      cases hwu : writeU29 (idx <<< 2) with
      | error e =>
        simp only [hwu] at h
        cases h
      | ok bsu =>
        simp only [hwu] at h
        cases h
        exact cacheExtends_refl _
    | none =>
      rw [hci] at h
      cases hwl : writeU29 ((elems.len <<< 1) ||| 0x01) with
      | error e =>
        simp only [hwl] at h
        cases h
      | ok bsl =>
        simp only [hwl] at h
        cases hws0 : writeString [] st.stringCache with
        | error e =>
          simp only [hws0] at h
          cases h
        | ok p0 =>
          obtain ⟨bs0, c0⟩ := p0
          simp only [hws0] at h
          cases hel : encodeElems elems ⟨c0, st.objectCache ++ [id]⟩ with
          | error e =>
            simp only [hel] at h
            cases h
          | ok p1 =>
            obtain ⟨bsE, st2⟩ := p1
            simp only [hel] at h
            cases h
            exact cacheExtends_trans (writeString_cacheExtends hws0)
              (encodeElems_cacheExtends elems hel)
termination_by structural v

theorem encodeEntries_cacheExtends (entries : GoEntries) : ∀ {st : EncState}
    {bs : List Nat} {st' : EncState}, encodeEntries entries st = .ok (bs, st') →
    CacheExtends st.stringCache st'.stringCache := by
  cases entries with
  | nil =>
    intro st bs st' h
    cases h
    exact cacheExtends_refl _
  | cons k v rest =>
    intro st bs st' h
    simp only [encodeEntries] at h
    cases hwk : writeString k st.stringCache with
    | error e =>
      simp only [hwk] at h
      cases h
    | ok p0 =>
      obtain ⟨bsk, c⟩ := p0
      simp only [hwk] at h
      cases hev : encodeVal v ⟨c, st.objectCache⟩ with
      | error e =>
        simp only [hev] at h
        cases h
      | ok p1 =>
        obtain ⟨bsv, st2⟩ := p1
        simp only [hev] at h
        cases her : encodeEntries rest st2 with
        | error e =>
          simp only [her] at h
          cases h
        | ok p2 =>
          obtain ⟨bsr, st3⟩ := p2
          simp only [her] at h
          cases h
          exact cacheExtends_trans (cacheExtends_trans
              (writeString_cacheExtends hwk)
              (encodeVal_cacheExtends v hev))
            (encodeEntries_cacheExtends rest her)
termination_by structural entries

theorem encodeElems_cacheExtends (elems : GoVals) : ∀ {st : EncState}
    {bs : List Nat} {st' : EncState}, encodeElems elems st = .ok (bs, st') →
    CacheExtends st.stringCache st'.stringCache := by
  cases elems with
  | nil =>
    intro st bs st' h
    cases h
    exact cacheExtends_refl _
  | cons v rest =>
    intro st bs st' h
    simp only [encodeElems] at h
    cases hev : encodeVal v st with
    | error e =>
      simp only [hev] at h
      cases h
    | ok p1 =>
      obtain ⟨bsv, st2⟩ := p1
      simp only [hev] at h
      cases her : encodeElems rest st2 with
      | error e =>
        simp only [her] at h
        cases h
      | ok p2 =>
        obtain ⟨bsr, st3⟩ := p2
        simp only [her] at h
        cases h
        exact cacheExtends_trans (encodeVal_cacheExtends v hev)
          (encodeElems_cacheExtends rest her)
termination_by structural elems
end

theorem dec_cacheExtends_all (fuel : Nat) :
    (∀ {input : List Nat} {st : DecState} {v : AMFVal} {st' : DecState}
      {rest : List Nat}, decodeAny fuel input st = .ok (v, st', rest) →
      CacheExtends st.stringCache st'.stringCache) ∧
    (∀ {input : List Nat} {st : DecState} {kvs : List (GoStr × AMFVal)}
      {st' : DecState} {rest : List Nat},
      decMapEntries fuel input st = .ok (kvs, st', rest) →
      CacheExtends st.stringCache st'.stringCache) ∧
    (∀ {n : Nat} {input : List Nat} {st : DecState} {vs : List AMFVal}
      {st' : DecState} {rest : List Nat},
      decListElems fuel n input st = .ok (vs, st', rest) →
      CacheExtends st.stringCache st'.stringCache) := by
  induction fuel with
  | zero =>
    refine ⟨?_, ?_, ?_⟩ <;> intros <;> rename_i h <;> cases h
  | succ fuel ih =>
    obtain ⟨ih1, ih2, ih3⟩ := ih
    refine ⟨?_, ?_, ?_⟩
    · intro input st v st' rest h
      cases input with
      | nil => cases h
      | cons marker rest0 =>
        simp only [decodeAny] at h
        by_cases h1 : marker = NULL_MARKER
        · rw [if_pos h1] at h
          cases h
          exact cacheExtends_refl _
        · rw [if_neg h1] at h
          by_cases h2 : marker = FALSE_MARKER
          · rw [if_pos h2] at h
            cases h
            exact cacheExtends_refl _
          · rw [if_neg h2] at h
            by_cases h3 : marker = TRUE_MARKER
            · rw [if_pos h3] at h
              cases h
              exact cacheExtends_refl _
            · rw [if_neg h3] at h
              by_cases h4 : marker = STRING_MARKER
              · rw [if_pos h4] at h
                cases hrs : readStr st.stringCache rest0 with
                | error e =>
                  simp only [hrs] at h
                  cases h
                | ok p =>
                  obtain ⟨s, c, rest2⟩ := p
                  simp only [hrs] at h
                  cases h
                  exact readStr_cacheExtends hrs
              · rw [if_neg h4] at h
                by_cases h5 : marker = DOUBLE_MARKER
                · rw [if_pos h5] at h
                  cases hrb : readBytes 8 rest0 with
                  | error e =>
                    simp only [hrb] at h
                    cases h
                  | ok p =>
                    obtain ⟨bytes, rest2⟩ := p
                    simp only [hrb] at h
                    cases h
                    exact cacheExtends_refl _
                · rw [if_neg h5] at h
                  by_cases h6 : marker = INTEGER_MARKER
                  · rw [if_pos h6] at h
                    cases hru : readU29 rest0 with
                    | error e =>
                      simp only [hru] at h
                      cases h
                    | ok p =>
                      obtain ⟨uv, rest2⟩ := p
                      simp only [hru] at h
                      cases h
                      exact cacheExtends_refl _
                  · rw [if_neg h6] at h
                    by_cases h7 : marker = ARRAY_MARKER
                    · rw [if_pos h7] at h
                      cases hru : readU29 rest0 with
                      | error e =>
                        simp only [hru] at h
                        cases h
                      | ok p =>
                        obtain ⟨index, rest2⟩ := p
                        simp only [hru] at h
                        by_cases he : index &&& 0x01 = 0
                        · rw [if_pos he] at h
                          cases hg : st.objectCache[index >>> 1]? with
                          | some w =>
                            simp only [hg] at h
                            cases h
                            exact cacheExtends_refl _
                          | none =>
                            simp only [hg] at h
                            cases h
                        · rw [if_neg he] at h
                          split at h
                          · cases h
                          · rename_i sep rest3
                            split at h
                            · rename_i hsep
                              cases hdl : decListElems fuel (index >>> 1) rest3
                                  ⟨st.stringCache, st.objectCache ++
                                    [.alist (List.replicate (index >>> 1) .anull)]⟩ with
                              | error e =>
                                simp only [hdl] at h
                                cases h
                              | ok p2 =>
                                obtain ⟨vs, st2, rest4⟩ := p2
                                simp only [hdl] at h
                                cases h
                                have hx := ih3 hdl
                                exact hx
                            · cases h
                    · rw [if_neg h7] at h
                      by_cases h8 : marker = OBJECT_MARKER
                      · rw [if_pos h8] at h
                        cases hru : readU29 rest0 with
                        | error e =>
                          simp only [hru] at h
                          cases h
                        | ok p =>
                          obtain ⟨index, rest2⟩ := p
                          simp only [hru] at h
                          by_cases he : index &&& 0x01 = 0
                          · rw [if_pos he] at h
                            cases hg : st.objectCache[index >>> 1]? with
                            | some w =>
                              simp only [hg] at h
                              cases h
                              exact cacheExtends_refl _
                            | none =>
                              simp only [hg] at h
                              cases h
                          · rw [if_neg he] at h
                            by_cases hio : index = 0x0b
                            · rw [if_neg (not_not_intro hio)] at h
                              split at h
                              · cases h
                              · rename_i sep rest3
                                split at h
                                · rename_i hsep
                                  cases hdm : decMapEntries fuel rest3
                                      ⟨st.stringCache,
                                       st.objectCache ++ [.amap []]⟩ with
                                  | error e =>
                                    simp only [hdm] at h
                                    cases h
                                  | ok p2 =>
                                    obtain ⟨kvs, st2, rest4⟩ := p2
                                    simp only [hdm] at h
                                    cases h
                                    have hx := ih2 hdm
                                    exact hx
                                · cases h
                            · rw [if_pos hio] at h
                              cases h
                      · rw [if_neg h8] at h
                        cases h
    · intro input st kvs st' rest h
      simp only [decMapEntries] at h
      cases hrs : readStr st.stringCache input with
      | error e =>
        simp only [hrs] at h
        cases h
      | ok p =>
        obtain ⟨k, c, rest0⟩ := p
        simp only [hrs] at h
        by_cases hk : k = []
        · rw [if_pos hk] at h
          cases h
          exact readStr_cacheExtends hrs
        · rw [if_neg hk] at h
          split at h
          · cases h
          · rename_i m rest1
            split at h
            · cases h
            · cases hda : decodeAny fuel (m :: rest1) ⟨c, st.objectCache⟩ with
              | error e =>
                simp only [hda] at h
                cases h
              | ok p1 =>
                obtain ⟨v, st2, rest2⟩ := p1
                simp only [hda] at h
                cases hdm : decMapEntries fuel rest2 st2 with
                | error e =>
                  simp only [hdm] at h
                  cases h
                | ok p2 =>
                  obtain ⟨kvs2, st3, rest3⟩ := p2
                  simp only [hdm] at h
                  cases h
                  exact cacheExtends_trans (cacheExtends_trans
                      (readStr_cacheExtends hrs) (ih1 hda)) (ih2 hdm)
    · intro n input st vs st' rest h
      cases n with
      | zero =>
        cases h
        exact cacheExtends_refl _
      | succ n =>
        simp only [decListElems] at h
        cases hda : decodeAny fuel input st with
        | error e =>
          simp only [hda] at h
          cases h
        | ok p1 =>
          obtain ⟨v, st2, rest2⟩ := p1
          simp only [hda] at h
          cases hdl : decListElems fuel n rest2 st2 with
          | error e =>
            simp only [hdl] at h
            cases h
          | ok p2 =>
            obtain ⟨vs2, st3, rest3⟩ := p2
            simp only [hdl] at h
            cases h
            exact cacheExtends_trans (ih1 hda) (ih3 hdl)

theorem decodeAny_cacheExtends (fuel : Nat) {input : List Nat}
    {st : DecState} {v : AMFVal} {st' : DecState} {rest : List Nat}
    (h : decodeAny fuel input st = .ok (v, st', rest)) :
    CacheExtends st.stringCache st'.stringCache :=
  (dec_cacheExtends_all fuel).1 h

/-- One operation of a session: an `Encode` call or a `Decode` call (into a
dynamic destination, with ample fuel). -/
inductive SessionOp where
  | enc (v : GoVal)
  | dec (fuel : Nat) (input : List Nat)

/-- Run a session of successful operations, threading the encoder and
decoder caches; a failing call ends the session (its partial state is not
observable in this model). -/
def runSession : List SessionOp → EncState → DecState →
    Option (EncState × DecState)
  | [], e, d => some (e, d)
  | .enc v :: ops, e, d =>
    match encodeVal v e with
    | .ok (_, e') => runSession ops e' d
    | .error _ => none
  | .dec fuel input :: ops, e, d =>
    match decodeAny fuel input d with
    | .ok (_, d', _) => runSession ops e d'
    | .error _ => none

theorem runSession_cacheExtends : ∀ (ops : List SessionOp) (e : EncState)
    (d : DecState) {e' : EncState} {d' : DecState},
    runSession ops e d = some (e', d') →
    CacheExtends e.stringCache e'.stringCache ∧
    CacheExtends d.stringCache d'.stringCache := by
  intro ops
  induction ops with
  | nil =>
    intro e d e' d' h
    cases h
    exact ⟨cacheExtends_refl _, cacheExtends_refl _⟩
  | cons op ops ih =>
    intro e d e' d' h
    cases op with
    | enc v =>
      simp only [runSession] at h
      cases hev : encodeVal v e with
      | error er =>
        simp only [hev] at h
        cases h
      | ok p =>
        obtain ⟨bs, e2⟩ := p
        simp only [hev] at h
        obtain ⟨x1, x2⟩ := ih e2 d h
        exact ⟨cacheExtends_trans (encodeVal_cacheExtends v hev) x1, x2⟩
    | dec fuel input =>
      simp only [runSession] at h
      cases hdv : decodeAny fuel input d with
      | error er =>
        simp only [hdv] at h
        cases h
      | ok p =>
        obtain ⟨v, d2, rest⟩ := p
        simp only [hdv] at h
        obtain ⟨x1, x2⟩ := ih e d2 h
        exact ⟨x1, cacheExtends_trans (decodeAny_cacheExtends fuel hdv) x2⟩

/-- Claim C9 (confirmed).  After any session of successful Encode/Decode
calls from freshly Reset states, every entry of the encoder's and the
decoder's string cache is non-empty; and each single write/read either
leaves the cache unchanged or appends exactly the new non-empty literal at
the end — order of first appearance (`CacheExtends`). -/
theorem C9_empty_string_never_cached (ops : List SessionOp)
    (e : EncState) (d : DecState)
    (h : runSession ops resetEnc resetDec = some (e, d)) :
    (∀ s ∈ e.stringCache, s ≠ []) ∧ (∀ s ∈ d.stringCache, s ≠ []) ∧
    (∀ (s : GoStr) (cache : List GoStr) (bs : List Nat) (c' : List GoStr),
      writeString s cache = .ok (bs, c') → CacheExtends cache c') ∧
    (∀ (cache : List GoStr) (input : List Nat) (s : GoStr)
      (c' : List GoStr) (rest : List Nat),
      readStr cache input = .ok (s, c', rest) → CacheExtends cache c') := by
  obtain ⟨⟨t1, he1, hn1⟩, ⟨t2, he2, hn2⟩⟩ :=
    runSession_cacheExtends ops resetEnc resetDec h
  refine ⟨?_, ?_, ?_, ?_⟩
  · intro s hs
    rw [he1] at hs
    exact hn1 s (by simpa [resetEnc] using hs)
  · intro s hs
    rw [he2] at hs
    exact hn2 s (by simpa [resetDec] using hs)
  · intro s cache bs c' hw
    exact writeString_cacheExtends hw
  · intro cache input s c' rest hr
    exact readStr_cacheExtends hr

/-- Claim C9 witness: the session that encodes the string `"a"` and then
decodes its own wire form `06 03 61` ends with both caches equal to
`["a"]`, whose sole entry is non-empty. -/
theorem C9_empty_string_witness :
    runSession [.enc (.vstr [97]), .dec 10 [0x06, 0x03, 0x61]]
      resetEnc resetDec = some (⟨[[97]], []⟩, ⟨[[97]], []⟩) ∧
    ([97] : GoStr) ≠ [] := by
  refine ⟨rfl, ?_⟩
  exact (C9_empty_string_never_cached
    [.enc (.vstr [97]), .dec 10 [0x06, 0x03, 0x61]]
    ⟨[[97]], []⟩ ⟨[[97]], []⟩ rfl).1 [97] (by simp)

end GoAMF
